import Mathlib

/-!
Shallow embedding of the set-algebra and parsing core of `src/app.py`
(a Streamlit app for visualizing set operations on two or three sets).

Conventions of the embedding:
* Python strings are Lean `String`s; character-level work happens on
  `List Char` (`String.data`).  Only the ASCII fragment of Python's
  whitespace and digit classes is modelled (the app's inputs are
  comma-separated ASCII tokens).
* A Python value that is "int or str" is the inductive type `Element`;
  Python's `None` is `Option.none`.
* Python `set` objects are `Finset Element`; `set.add` is `insert`,
  `|`/`&`/`-` are `∪`/`∩`/`\`.
* The `@st.cache_data` decorators are pure memoization and are dropped.
* Streamlit UI calls (`st.error`, `st.sidebar.error`) are modelled as
  data: a `Bool` flag for the unknown-operation error and an
  `Option (Finset Element)` carrying the set listed by the
  universal-coverage warning.
-/

/-- A parsed atomic value of the app: a Python `int` or a Python `str`. -/
inductive Element where
  | int : Int → Element
  | str : String → Element
deriving DecidableEq, Repr

/-- ASCII fragment of Python `str.isspace` (the whitespace stripped by `str.strip()`). -/
def isPySpace (c : Char) : Bool :=
  c = ' ' || c = '\t' || c = '\n' || c = '\r' || c = '\x0b' || c = '\x0c'

/-- Python `str.strip()` on a character list: drop whitespace from both ends. -/
def pyStripL (l : List Char) : List Char :=
  ((l.dropWhile isPySpace).reverse.dropWhile isPySpace).reverse

/-- Numeric value of an ASCII digit character. -/
def charVal (c : Char) : Nat := c.toNat - 48

/-- Digit run of Python's `int()` grammar: digits with single underscores
allowed between digits (`digit (["_"] digit)*`), accumulating the value. -/
def goDigitsU (acc : Nat) : List Char → Option Nat
  | [] => some acc
  | c :: rest =>
    if c.isDigit then goDigitsU (acc * 10 + charVal c) rest
    else if c = '_' then
      match rest with
      | c2 :: rest2 =>
        if c2.isDigit then goDigitsU (acc * 10 + charVal c2) rest2 else none
      | [] => none
    else none

/-- Nonempty digit run (underscores allowed between digits), Python `int()` style. -/
def parseDigitsU : List Char → Option Nat
  | c :: rest => if c.isDigit then goDigitsU (charVal c) rest else none
  | [] => none

/-- Python `int(s)` on a string (ASCII fragment): strip whitespace, optional
sign, then digits with single underscores allowed between digits. -/
def pyIntL (l : List Char) : Option Int :=
  match pyStripL l with
  | [] => none
  | c :: rest =>
    if c = '+' then (parseDigitsU rest).map Int.ofNat
    else if c = '-' then (parseDigitsU rest).map (fun n => -(n : Int))
    else (parseDigitsU (c :: rest)).map Int.ofNat

/-- Digit run with no underscores allowed. -/
def goDigitsPlain (acc : Nat) : List Char → Option Nat
  | [] => some acc
  | c :: rest => if c.isDigit then goDigitsPlain (acc * 10 + charVal c) rest else none

/-- Nonempty plain digit run. -/
def parseDigitsPlain : List Char → Option Nat
  | c :: rest => if c.isDigit then goDigitsPlain (charVal c) rest else none
  | [] => none

/-- A conforming integer parser in the spec's words: an optionally signed,
whitespace-padded run of decimal digits, and nothing else.  This definition
follows the SPEC's description (§8: "optionally signed, whitespace-padded"),
to be compared with the code's `pyIntL`. -/
def conformingInt (s : String) : Option Int :=
  match pyStripL s.data with
  | [] => none
  | c :: rest =>
    if c = '+' then (parseDigitsPlain rest).map Int.ofNat
    else if c = '-' then (parseDigitsPlain rest).map (fun n => -(n : Int))
    else (parseDigitsPlain (c :: rest)).map Int.ofNat

/-- Embedding of `parse_element` of `src/app.py` (lines 24-33) on a character list:
strip whitespace; empty remainder means "no value"; otherwise try `int()`
conversion and fall back to the trimmed string. -/
def parse_elementL (x : List Char) : Option Element :=
  let xs := pyStripL x
  if xs = [] then none
  else
    match pyIntL xs with
    | some n => some (Element.int n)
    | none => some (Element.str (String.mk xs))

/-- Embedding of `parse_element` of `src/app.py` (lines 24-33). -/
def parse_element (x : String) : Option Element :=
  parse_elementL x.data

/-- Python `str.split(",")`: split a character list on commas, keeping empty
pieces (so the empty input yields one empty piece, as in Python). -/
def splitOnComma : List Char → List (List Char)
  | [] => [[]]
  | c :: rest =>
    if c = ',' then [] :: splitOnComma rest
    else
      match splitOnComma rest with
      | [] => [[c]]
      | h :: t => (c :: h) :: t

/-- Loop body of `parse_set`: add the parsed element unless it is `None`. -/
def addElement (acc : Finset Element) (part : List Char) : Finset Element :=
  match parse_elementL part with
  | some el => insert el acc
  | none => acc

/-- Embedding of `parse_set` of `src/app.py` (lines 35-43) on a character list: split on
commas, parse each piece, and collect the non-`None` results into a set. -/
def parse_setL (l : List Char) : Finset Element :=
  (splitOnComma l).foldl addElement ∅

/-- Embedding of `parse_set` of `src/app.py` (lines 35-43). -/
def parse_set (text : String) : Finset Element :=
  parse_setL text.data

/-- Signed-integer item of the range regex: `[-]?\d+` (a greedy digit run,
optionally preceded by a single minus sign), returning the value and the
remaining characters.  Plain digits only: the regex uses `\d`. -/
def parseSignedInt : List Char → Option (Int × List Char)
  | '-' :: rest =>
    match rest.span Char.isDigit with
    | (ds, rest2) =>
      if ds = [] then none else some (-(ds.foldl (fun a c => a * 10 + charVal c) 0 : Int), rest2)
  | l =>
    match l.span Char.isDigit with
    | (ds, rest2) =>
      if ds = [] then none else some ((ds.foldl (fun a c => a * 10 + charVal c) 0 : Int), rest2)

/-- The range pattern of `parse_universal` (line 49 of `src/app.py`):
`re.fullmatch(r"\s*([-]?\d+)\s*-\s*([-]?\d+)\s*", txt)`, returning the two
captured integers.  The regex is deterministic on full matches (a greedy
digit run can never profitably backtrack into `\s*-`), so it is embedded as
a straight-line parser. -/
def rangeMatch (l : List Char) : Option (Int × Int) :=
  match parseSignedInt (l.dropWhile isPySpace) with
  | none => none
  | some (a, r1) =>
    match r1.dropWhile isPySpace with
    | '-' :: r3 =>
      match parseSignedInt (r3.dropWhile isPySpace) with
      | none => none
      | some (b, r5) => if r5.dropWhile isPySpace = [] then some (a, b) else none
    | _ => none

/-- Python `range(start, stop)` as a list of integers. -/
def pyRange (start stop : Int) : List Int :=
  (List.range (stop - start).toNat).map (fun i => start + Int.ofNat i)

/-- Python `set(range(start, stop))` tagged as app elements. -/
def pyRangeSet (start stop : Int) : Finset Element :=
  ((pyRange start stop).map Element.int).toFinset

/-- Embedding of `parse_universal` of `src/app.py` (lines 45-56): strip, try the numeric
range pattern `start-end` (inclusive, oriented low-to-high), else fall back
to `parse_set` on the stripped text. -/
def parse_universal (text : String) : Finset Element :=
  let txt := pyStripL text.data
  match rangeMatch txt with
  | some (s, e) => if s ≤ e then pyRangeSet s (e + 1) else pyRangeSet e (s + 1)
  | none => parse_setL txt

/-- Python `str(e)` for an app element: decimal for ints, identity for strings. -/
def Element.pyStr : Element → String
  | .int n => toString n
  | .str s => s

/-- Code-point lexicographic comparison of character lists (Python `str` order). -/
def listLe : List Char → List Char → Bool
  | [], _ => true
  | _ :: _, [] => false
  | a :: as, b :: bs => if a = b then listLe as bs else decide (a < b)

/-- Python's cross-type-safe natural order on elements: `int`s numerically,
`str`s lexicographically.  The cross-type cases never arise in the branch of
`sort_result` that uses this order (Python would raise `TypeError` there);
they are given fixed values to keep the relation total. -/
def natLeB : Element → Element → Bool
  | .int m, .int n => decide (m ≤ n)
  | .str s, .str t => listLe s.data t.data
  | .int _, .str _ => true
  | .str _, .int _ => false

/-- The `key=lambda x: str(x)` fallback order of `sort_result`. -/
def keyLeB (a b : Element) : Bool := listLe a.pyStr.data b.pyStr.data

/-- Natural order on elements as a relation, for `List.insertionSort`. -/
def natLeR (a b : Element) : Prop := natLeB a b = true

/-- String-key fallback order as a relation. -/
def keyLeR (a b : Element) : Prop := keyLeB a b = true

instance : DecidableRel natLeR := fun a b => instDecidableEqBool (natLeB a b) true

instance : DecidableRel keyLeR := fun a b => instDecidableEqBool (keyLeB a b) true

/-- Whether a list of elements contains a Python `int`. -/
def hasInt (l : List Element) : Bool :=
  l.any fun e => match e with | .int _ => true | .str _ => false

/-- Whether a list of elements contains a Python `str`. -/
def hasStr (l : List Element) : Bool :=
  l.any fun e => match e with | .str _ => true | .int _ => false

/-- Embedding of `sort_result` of `src/app.py` (lines 58-64) on a list enumerating the
set: `sorted(s)`, falling back to `sorted(s, key=lambda x: str(x))` on
`TypeError`.  Python's `sorted` raises `TypeError` on these elements exactly
when both an `int` and a `str` are present (run detection compares every
adjacent cross-type pair), so the embedding branches on that condition.
Both branches use a stable sort, as Python's does. -/
def sort_result (l : List Element) : List Element :=
  if hasInt l && hasStr l then List.insertionSort keyLeR l
  else List.insertionSort natLeR l

/-- Python `", ".join(strs)`. -/
def joinCommaSep : List String → String
  | [] => ""
  | [s] => s
  | s :: rest => s ++ ", " ++ joinCommaSep rest

/-- Embedding of `format_set` of `src/app.py` (lines 66-71) on a list enumerating the
set: `∅` when empty, else `{a, b, ...}` over `sort_result`. -/
def format_setL (l : List Element) : String :=
  if l = [] then "∅"
  else "\x7b" ++ joinCommaSep ((sort_result l).map Element.pyStr) ++ "\x7d"

/-- Substring test (Python's `"Complement" in operation`). -/
def strContains (hay needle : String) : Bool :=
  hay.data.tails.any fun t => needle.data.isPrefixOf t

/-- The fixed two-set operation menu of `src/app.py` (lines 115-122). -/
def menu2 : List String :=
  ["A ∪ B", "A ∩ B", "A \\ B", "B \\ A",
   "Complement of A", "Complement of B",
   "Complement of (A ∪ B)", "Complement of (A ∩ B)"]

/-- The fixed three-set operation menu of `src/app.py` (lines 123-132). -/
def menu3 : List String :=
  ["A ∪ B ∪ C", "A ∩ B ∩ C",
   "A \\ (B ∪ C)", "B \\ (A ∪ C)", "C \\ (A ∪ B)",
   "(A ∩ B) \\ C", "(A ∩ C) \\ B", "(B ∩ C) \\ A",
   "Complement of A", "Complement of B", "Complement of C",
   "Complement of (A ∪ B ∪ C)", "Complement of (A ∩ B ∩ C)"]

/-- Everything the two-set dispatch of `src/app.py` assigns: the two rendered
sets, the computed result, the highlighted region ids, the colors, and
whether `st.error` was shown. -/
structure TwoSetOutcome where
  set1 : Finset Element
  set2 : Finset Element
  result : Finset Element
  highlight_ids : List String
  colors : String × String
  errorShown : Bool
deriving DecidableEq

/-- The two-set operation dispatch of `src/app.py` (lines 151-194):
`result, highlight_ids = set(), []`, `set1, set2 = A, B`,
`colors = (color_A, color_B)`, then the `if`/`elif` chain on the operation
name; the final `else` shows `st.error` and empties all sets. -/
def evalTwo (operation : String) (A B U : Finset Element)
    (color_A color_B : String) : TwoSetOutcome :=
  if operation = "A ∪ B" then
    ⟨A, B, A ∪ B, ["10", "01", "11"], (color_A, color_B), false⟩
  else if operation = "A ∩ B" then
    ⟨A, B, A ∩ B, ["11"], (color_A, color_B), false⟩
  else if operation = "A \\ B" then
    ⟨A, B, A \ B, ["10"], (color_A, color_B), false⟩
  else if operation = "B \\ A" then
    ⟨A, B, B \ A, ["01"], (color_A, color_B), false⟩
  else if operation = "Complement of A" then
    ⟨U, A, U \ A, ["10"], ("#CCCCCC", color_A), false⟩
  else if operation = "Complement of B" then
    ⟨U, B, U \ B, ["10"], ("#CCCCCC", color_B), false⟩
  else if operation = "Complement of (A ∪ B)" then
    ⟨U, A ∪ B, U \ (A ∪ B), ["10"], ("#CCCCCC", "#888888"), false⟩
  else if operation = "Complement of (A ∩ B)" then
    ⟨U, A ∩ B, U \ (A ∩ B), ["10"], ("#CCCCCC", "#888888"), false⟩
  else
    ⟨∅, ∅, ∅, [], (color_A, color_B), true⟩

/-- The universal-coverage validation of `src/app.py` (lines 139-149):
when the operation name contains `Complement`, collect the elements of A, B
(and C when three sets are shown) missing from U; a nonempty collection is
surfaced by `st.sidebar.error`, modelled as `some missing`.  `none` means no
warning was shown.  The following computation is unconditional either way. -/
def complementWarning (num_sets : Nat) (operation : String)
    (A B C U : Finset Element) : Option (Finset Element) :=
  if strContains operation "Complement" then
    let missing := A \ U ∪ B \ U ∪ (if num_sets = 3 then C \ U else ∅)
    if missing = ∅ then none else some missing
  else none

/-- Modelled from the spec: the three-set operation dispatch of this
repository is not under `src/` (`src/app.py` is cut off mid three-set branch
at line 238, right after `else:  # num_sets == 3`).  This definition follows
§4.5 of the spec: the result comes from "the standard algebra (union,
intersection, difference, symmetric combinations, or complement relative to
U)" as named by the operation, the highlighted region identifiers are those
"matching the semantics of the chosen operation exactly" (region codes are
membership masks, as in the two-set examples "10", "01", "11"), and "a
complement operation substitutes U as one of the two rendered sets and
highlights the region representing outside the other set" (mask "10"). -/
def evalThree (operation : String) (A B C U : Finset Element) :
    Finset Element × List String :=
  if operation = "A ∪ B ∪ C" then
    (A ∪ B ∪ C, ["100", "010", "001", "110", "101", "011", "111"])
  else if operation = "A ∩ B ∩ C" then (A ∩ B ∩ C, ["111"])
  else if operation = "A \\ (B ∪ C)" then (A \ (B ∪ C), ["100"])
  else if operation = "B \\ (A ∪ C)" then (B \ (A ∪ C), ["010"])
  else if operation = "C \\ (A ∪ B)" then (C \ (A ∪ B), ["001"])
  else if operation = "(A ∩ B) \\ C" then ((A ∩ B) \ C, ["110"])
  else if operation = "(A ∩ C) \\ B" then ((A ∩ C) \ B, ["101"])
  else if operation = "(B ∩ C) \\ A" then ((B ∩ C) \ A, ["011"])
  else if operation = "Complement of A" then (U \ A, ["10"])
  else if operation = "Complement of B" then (U \ B, ["10"])
  else if operation = "Complement of C" then (U \ C, ["10"])
  else if operation = "Complement of (A ∪ B ∪ C)" then (U \ (A ∪ B ∪ C), ["10"])
  else if operation = "Complement of (A ∩ B ∩ C)" then (U \ (A ∩ B ∩ C), ["10"])
  else (∅, [])

/-! ### Helper lemmas (shared across the claim theorems) -/

/-- Membership in one `parse_set` loop step. -/
theorem mem_addElement (s : Finset Element) (p : List Char) (e : Element) :
    e ∈ addElement s p ↔ e ∈ s ∨ parse_elementL p = some e := by
  unfold addElement
  cases hp : parse_elementL p with
  | none => simp
  | some el =>
    simp only [Finset.mem_insert, Option.some.injEq]
    constructor
    · rintro (rfl | hs)
      · exact Or.inr rfl
      · exact Or.inl hs
    · rintro (hs | rfl)
      · exact Or.inr hs
      · exact Or.inl rfl

/-- Membership in the `parse_set` accumulation loop. -/
theorem mem_foldl_addElement (parts : List (List Char)) :
    ∀ (s : Finset Element) (e : Element),
    e ∈ parts.foldl addElement s ↔ e ∈ s ∨ ∃ p, p ∈ parts ∧ parse_elementL p = some e := by
  induction parts with
  | nil => intro s e; simp
  | cons p ps ih =>
    intro s e
    rw [List.foldl_cons, ih, mem_addElement]
    constructor
    · rintro ((hs | hpe) | ⟨q, hq, hqe⟩)
      · exact Or.inl hs
      · exact Or.inr ⟨p, List.mem_cons_self p ps, hpe⟩
      · exact Or.inr ⟨q, List.mem_cons_of_mem p hq, hqe⟩
    · rintro (hs | ⟨q, hq, hqe⟩)
      · exact Or.inl (Or.inl hs)
      · rcases List.mem_cons.mp hq with rfl | hq2
        · exact Or.inl (Or.inr hqe)
        · exact Or.inr ⟨q, hq2, hqe⟩

/-- An element is in a parsed set iff it is the parse of one comma piece. -/
theorem mem_parse_setL (l : List Char) (e : Element) :
    e ∈ parse_setL l ↔ ∃ p, p ∈ splitOnComma l ∧ parse_elementL p = some e := by
  rw [parse_setL, mem_foldl_addElement]
  simp

/-- The `parse_set` loop body is commutative, so insertion order is irrelevant. -/
theorem addElement_comm (s : Finset Element) (p q : List Char) :
    addElement (addElement s p) q = addElement (addElement s q) p := by
  unfold addElement
  cases hp : parse_elementL p <;> cases hq : parse_elementL q <;>
    simp [Finset.Insert.comm]

/-- The `parse_set` accumulation is invariant under permuting the pieces. -/
theorem foldl_addElement_perm {l₁ l₂ : List (List Char)} (h : l₁.Perm l₂) :
    ∀ s : Finset Element, l₁.foldl addElement s = l₂.foldl addElement s := by
  induction h with
  | nil => intro s; rfl
  | cons x _ ih => intro s; rw [List.foldl_cons, List.foldl_cons, ih]
  | swap x y l => intro s; rw [List.foldl_cons, List.foldl_cons, List.foldl_cons,
      List.foldl_cons, addElement_comm]
  | trans _ _ ih₁ ih₂ => intro s; rw [ih₁, ih₂]

/-- Invariance of `List.any` under permutation. -/
theorem any_perm {α : Type} {p : α → Bool} {l₁ l₂ : List α} (h : l₁.Perm l₂) :
    l₁.any p = l₂.any p := by
  induction h with
  | nil => rfl
  | cons x _ ih => rw [List.any_cons, List.any_cons, ih]
  | swap x y l => rw [List.any_cons, List.any_cons, List.any_cons, List.any_cons,
      ← Bool.or_assoc, Bool.or_comm (p y) (p x), Bool.or_assoc]
  | trans _ _ ih₁ ih₂ => rw [ih₁, ih₂]

/-- Code-point order on character lists is total. -/
theorem listLe_total : ∀ s t : List Char, listLe s t = true ∨ listLe t s = true
  | [], _ => Or.inl rfl
  | _ :: _, [] => Or.inr rfl
  | a :: as, b :: bs => by
    by_cases hab : a = b
    · subst hab
      simp only [listLe, if_pos rfl]
      exact listLe_total as bs
    · simp only [listLe, if_neg hab, if_neg (Ne.symm hab), decide_eq_true_eq]
      exact lt_or_gt_of_ne hab

/-- Code-point order on character lists is transitive. -/
theorem listLe_trans : ∀ s t u : List Char,
    listLe s t = true → listLe t u = true → listLe s u = true
  | [], _, _ => fun _ _ => rfl
  | a :: as, [], u => fun h _ => by simp [listLe] at h
  | a :: as, b :: bs, [] => fun _ h => by simp [listLe] at h
  | a :: as, b :: bs, c :: cs => fun h1 h2 => by
    by_cases hab : a = b <;> by_cases hbc : b = c
    · subst hab; subst hbc
      simp only [listLe, if_pos rfl] at *
      exact listLe_trans as bs cs h1 h2
    · subst hab
      simp only [listLe, if_pos rfl, if_neg hbc] at *
      simp only [if_neg hbc, decide_eq_true_eq] at h2 ⊢
      exact h2
    · subst hbc
      simp only [listLe, if_neg hab, decide_eq_true_eq] at *
      exact h1
    · have hac : a ≠ c := by
        intro he
        subst he
        simp only [listLe, if_neg hab, if_neg hbc, decide_eq_true_eq] at h1 h2
        exact absurd (lt_trans h1 h2) (lt_irrefl a)
      simp only [listLe, if_neg hab, if_neg hbc, if_neg hac, decide_eq_true_eq] at *
      exact lt_trans h1 h2

/-- Code-point order on character lists is antisymmetric. -/
theorem listLe_antisymm : ∀ s t : List Char,
    listLe s t = true → listLe t s = true → s = t
  | [], [] => fun _ _ => rfl
  | [], _ :: _ => fun _ h => by simp [listLe] at h
  | _ :: _, [] => fun h _ => by simp [listLe] at h
  | a :: as, b :: bs => fun h1 h2 => by
    by_cases hab : a = b
    · subst hab
      simp only [listLe, if_pos rfl] at h1 h2
      rw [listLe_antisymm as bs h1 h2]
    · simp only [listLe, if_neg hab, if_neg (Ne.symm hab), decide_eq_true_eq] at h1 h2
      exact absurd (lt_trans h1 h2) (lt_irrefl a)

instance : IsTotal Element natLeR where
  total a b := by
    cases a <;> cases b <;> simp only [natLeR, natLeB, decide_eq_true_eq]
    · exact Int.le_total _ _
    · exact Or.inl trivial
    · exact Or.inr trivial
    · exact listLe_total _ _

instance : IsTrans Element natLeR where
  trans a b c hab hbc := by
    cases a with
    | int m =>
      cases b with
      | int n =>
        cases c with
        | int k =>
          simp only [natLeR, natLeB, decide_eq_true_eq] at *
          exact le_trans hab hbc
        | str u => exact rfl
      | str t =>
        cases c with
        | int k =>
          simp only [natLeR, natLeB] at hbc
          exact Bool.noConfusion hbc
        | str u => exact rfl
    | str s =>
      cases b with
      | int n =>
        simp only [natLeR, natLeB] at hab
        exact Bool.noConfusion hab
      | str t =>
        cases c with
        | int k =>
          simp only [natLeR, natLeB] at hbc
          exact Bool.noConfusion hbc
        | str u =>
          simp only [natLeR, natLeB] at *
          exact listLe_trans _ _ _ hab hbc

instance : IsAntisymm Element natLeR where
  antisymm a b hab hba := by
    cases a with
    | int m =>
      cases b with
      | int n =>
        simp only [natLeR, natLeB, decide_eq_true_eq] at hab hba
        exact congrArg Element.int (le_antisymm hab hba)
      | str t =>
        simp only [natLeR, natLeB] at hba
        exact Bool.noConfusion hba
    | str s =>
      cases b with
      | int n =>
        simp only [natLeR, natLeB] at hab
        exact Bool.noConfusion hab
      | str t =>
        simp only [natLeR, natLeB] at hab hba
        obtain ⟨sd⟩ := s
        obtain ⟨td⟩ := t
        exact congrArg (fun l => Element.str (String.mk l)) (listLe_antisymm _ _ hab hba)

/-- Embedding fact: `sort_result` depends only on the underlying set when no mixed types are
present: any two enumerations in any order sort to the same list. -/
theorem sort_result_of_perm {l₁ l₂ : List Element} (h : l₁.Perm l₂)
    (hmix : (hasInt l₁ && hasStr l₁) = false) : sort_result l₁ = sort_result l₂ := by
  have hI : hasInt l₁ = hasInt l₂ := any_perm h
  have hS : hasStr l₁ = hasStr l₂ := any_perm h
  rw [sort_result, sort_result, ← hI, ← hS, if_neg (by simp [hmix]), if_neg (by simp [hmix])]
  exact List.eq_of_perm_of_sorted
    ((List.perm_insertionSort natLeR l₁).trans (h.trans (List.perm_insertionSort natLeR l₂).symm))
    (List.sorted_insertionSort natLeR l₁) (List.sorted_insertionSort natLeR l₂)

/-- A plain digit run is also accepted, with the same value, by the
underscore-tolerant digit run of Python's `int()`. -/
theorem goDigitsPlain_to_U : ∀ (l : List Char) (acc v : Nat),
    goDigitsPlain acc l = some v → goDigitsU acc l = some v := by
  intro l
  induction l with
  | nil => intro acc v h; exact h
  | cons c rest ih =>
    intro acc v h
    by_cases hc : c.isDigit
    · simp only [goDigitsPlain, if_pos hc] at h
      rw [goDigitsU.eq_def]
      simp only [if_pos hc]
      exact ih _ _ h
    · simp only [goDigitsPlain, if_neg hc] at h
      exact Option.noConfusion h

/-- A nonempty plain digit run is also accepted by `parseDigitsU`. -/
theorem parseDigitsPlain_to_U (l : List Char) (v : Nat)
    (h : parseDigitsPlain l = some v) : parseDigitsU l = some v := by
  cases l with
  | nil => exact absurd h (by simp [parseDigitsPlain])
  | cons c rest =>
    by_cases hc : c.isDigit
    · simp only [parseDigitsPlain, if_pos hc] at h
      rw [parseDigitsU.eq_def]
      simp only [if_pos hc]
      exact goDigitsPlain_to_U _ _ _ h
    · simp only [parseDigitsPlain, if_neg hc] at h
      exact Option.noConfusion h

/-- Every token the conforming integer parser accepts is accepted by the
code's `int()` conversion, with the same value. -/
theorem conformingInt_agrees (s : String) (n : Int)
    (h : conformingInt s = some n) : pyIntL s.data = some n := by
  rw [conformingInt] at h
  rw [pyIntL]
  cases hl : pyStripL s.data with
  | nil => rw [hl] at h; exact absurd h (by simp)
  | cons c rest =>
    rw [hl] at h
    simp only at h ⊢
    by_cases hplus : c = '+'
    · rw [if_pos hplus] at h ⊢
      cases hv : parseDigitsPlain rest with
      | none => rw [hv] at h; exact Option.noConfusion h
      | some v =>
        rw [hv] at h
        rw [parseDigitsPlain_to_U rest v hv]
        exact h
    · rw [if_neg hplus] at h ⊢
      by_cases hminus : c = '-'
      · rw [if_pos hminus] at h ⊢
        cases hv : parseDigitsPlain rest with
        | none => rw [hv] at h; exact Option.noConfusion h
        | some v =>
          rw [hv] at h
          rw [parseDigitsPlain_to_U rest v hv]
          exact h
      · rw [if_neg hminus] at h ⊢
        cases hv : parseDigitsPlain (c :: rest) with
        | none => rw [hv] at h; exact Option.noConfusion h
        | some v =>
          rw [hv] at h
          rw [parseDigitsPlain_to_U (c :: rest) v hv]
          exact h

/-- Membership in Python `range(start, stop)`. -/
theorem mem_pyRange {a s t : Int} : a ∈ pyRange s t ↔ s ≤ a ∧ a < t := by
  simp only [pyRange, List.mem_map, List.mem_range, Int.ofNat_eq_natCast]
  constructor
  · rintro ⟨i, hi, rfl⟩
    omega
  · rintro ⟨h1, h2⟩
    exact ⟨(a - s).toNat, by omega, by omega⟩

/-- Membership in the parsed inclusive range. -/
theorem mem_pyRangeSet {e : Element} {s t : Int} :
    e ∈ pyRangeSet s t ↔ ∃ m : Int, e = Element.int m ∧ s ≤ m ∧ m < t := by
  simp only [pyRangeSet, List.mem_toFinset, List.mem_map, mem_pyRange]
  constructor
  · rintro ⟨m, hm, rfl⟩
    exact ⟨m, rfl, hm⟩
  · rintro ⟨m, rfl, hm⟩
    exact ⟨m, hm, rfl⟩

/-- The head surviving a `dropWhile` fails the predicate. -/
theorem dropWhile_head_false {p : Char → Bool} :
    ∀ {l : List Char} {c : Char} {t : List Char},
    List.dropWhile p l = c :: t → p c = false := by
  intro l
  induction l with
  | nil => intro c t h; exact absurd h (by simp)
  | cons a rest ih =>
    intro c t h
    by_cases ha : p a
    · rw [List.dropWhile_cons, if_pos ha] at h
      exact ih h
    · rw [List.dropWhile_cons, if_neg ha] at h
      injection h with h1 _
      subst h1
      cases hpa : p a with
      | false => rfl
      | true => exact absurd hpa ha

/-- Idempotence of `dropWhile`. -/
theorem dropWhile_idem {p : Char → Bool} (l : List Char) :
    List.dropWhile p (List.dropWhile p l) = List.dropWhile p l := by
  cases hd : List.dropWhile p l with
  | nil => rfl
  | cons c t =>
    rw [List.dropWhile_cons, dropWhile_head_false hd]
    simp

/-- Python's `strip()` is idempotent. -/
theorem pyStripL_idem (l : List Char) : pyStripL (pyStripL l) = pyStripL l := by
  have hY : ∀ c t, List.dropWhile isPySpace l = c :: t → isPySpace c = false :=
    fun c t h => dropWhile_head_false h
  have hsuf : List.dropWhile isPySpace (List.dropWhile isPySpace l).reverse <:+
      (List.dropWhile isPySpace l).reverse := List.dropWhile_suffix _
  have hpre : (List.dropWhile isPySpace (List.dropWhile isPySpace l).reverse).reverse <+:
      List.dropWhile isPySpace l := by
    rw [← List.reverse_suffix, List.reverse_reverse]
    exact hsuf
  have h1 : List.dropWhile isPySpace
      (List.dropWhile isPySpace (List.dropWhile isPySpace l).reverse).reverse =
      (List.dropWhile isPySpace (List.dropWhile isPySpace l).reverse).reverse := by
    cases hzr : (List.dropWhile isPySpace (List.dropWhile isPySpace l).reverse).reverse with
    | nil => rfl
    | cons c t =>
      rw [hzr] at hpre
      obtain ⟨u, hu⟩ := hpre
      have hc : isPySpace c = false := hY c (t ++ u) (by rw [← hu]; rfl)
      rw [List.dropWhile_cons, hc]
      simp
  show pyStripL ((List.dropWhile isPySpace (List.dropWhile isPySpace l).reverse).reverse) =
    (List.dropWhile isPySpace (List.dropWhile isPySpace l).reverse).reverse
  rw [pyStripL, h1, List.reverse_reverse, dropWhile_idem]

/-- Applying `int()` to an already-stripped token equals applying it to the raw token. -/
theorem pyIntL_strip (w : List Char) : pyIntL (pyStripL w) = pyIntL w := by
  unfold pyIntL
  rw [pyStripL_idem]

/-- Zeta-reduced equation for `parse_elementL`. -/
theorem parse_elementL_eq (x : List Char) :
    parse_elementL x =
      if pyStripL x = [] then none
      else
        match pyIntL (pyStripL x) with
        | some n => some (Element.int n)
        | none => some (Element.str (String.mk (pyStripL x))) := rfl

/-! ### Claim theorems -/

/-- C1: for every pair of parsed sets A and B, the result computed for
"A ∪ B" equals the union of the three pairwise-disjoint region sets
A \ B, B \ A and A ∩ B (a partition of the union), and the highlight
identifiers are exactly "10","01","11" for "A ∪ B" and only "11" for
"A ∩ B". -/
theorem C1_union_partition_and_highlights :
    ∀ (A B U : Finset Element) (cA cB : String),
      (evalTwo "A ∪ B" A B U cA cB).result = (A \ B) ∪ (B \ A) ∪ (A ∩ B) ∧
      Disjoint (A \ B) (B \ A) ∧
      Disjoint (A \ B) (A ∩ B) ∧
      Disjoint (B \ A) (A ∩ B) ∧
      (evalTwo "A ∪ B" A B U cA cB).highlight_ids = ["10", "01", "11"] ∧
      (evalTwo "A ∩ B" A B U cA cB).highlight_ids = ["11"] := by
  intro A B U cA cB
  refine ⟨?_, ?_, ?_, ?_, rfl, rfl⟩
  · show A ∪ B = (A \ B) ∪ (B \ A) ∪ (A ∩ B)
    ext x
    simp only [Finset.mem_union, Finset.mem_sdiff, Finset.mem_inter]
    tauto
  · rw [Finset.disjoint_left]
    intro a ha hb
    simp only [Finset.mem_sdiff] at ha hb
    tauto
  · rw [Finset.disjoint_left]
    intro a ha hb
    simp only [Finset.mem_sdiff, Finset.mem_inter] at ha hb
    tauto
  · rw [Finset.disjoint_left]
    intro a ha hb
    simp only [Finset.mem_sdiff, Finset.mem_inter] at ha hb
    tauto

/-- C2: every two-set complement-family operation computes U minus the
operand, substitutes U as the first rendered set and the operand as the
second, and highlights exactly region "10"; in particular with
U is 1..10 and A is 2,4,6,8 the complement of A is 1,3,5,7,9,10. -/
theorem C2_two_set_complements :
    (∀ (A B U : Finset Element) (cA cB : String),
      evalTwo "Complement of A" A B U cA cB =
        ⟨U, A, U \ A, ["10"], ("#CCCCCC", cA), false⟩) ∧
    (∀ (A B U : Finset Element) (cA cB : String),
      evalTwo "Complement of B" A B U cA cB =
        ⟨U, B, U \ B, ["10"], ("#CCCCCC", cB), false⟩) ∧
    (∀ (A B U : Finset Element) (cA cB : String),
      evalTwo "Complement of (A ∪ B)" A B U cA cB =
        ⟨U, A ∪ B, U \ (A ∪ B), ["10"], ("#CCCCCC", "#888888"), false⟩) ∧
    (∀ (A B U : Finset Element) (cA cB : String),
      evalTwo "Complement of (A ∩ B)" A B U cA cB =
        ⟨U, A ∩ B, U \ (A ∩ B), ["10"], ("#CCCCCC", "#888888"), false⟩) ∧
    (evalTwo "Complement of A" (parse_set "2, 4, 6, 8") (parse_set "3, 4, 5, 6, 9")
        (parse_universal "1-10") "#FF5733" "#33C1FF").result =
      {Element.int 1, Element.int 3, Element.int 5, Element.int 7,
       Element.int 9, Element.int 10} := by
  refine ⟨fun A B U cA cB => rfl, fun A B U cA cB => rfl, fun A B U cA cB => rfl,
    fun A B U cA cB => rfl, ?_⟩
  decide

/-- C3 as stated is false on the code: Python's `int()` also accepts single
underscores between digits, so the trimmed token "1_2" — which a conforming
(optionally signed, whitespace-padded) integer parser rejects — produces
the integer 12, not the trimmed string "1_2". -/
theorem C3_counterexample :
    parse_element "1_2" = some (Element.int 12) ∧
    conformingInt "1_2" = none ∧
    parse_element "1_2" ≠ some (Element.str "1_2") :=
  ⟨by decide, by decide, by decide⟩

/-- C3 (amended): the Element Parser is total; it returns "no value" exactly
when the trimmed input is empty, returns the integer whenever the trimmed
token is accepted by the code's integer grammar — a conforming signed
integer parser extended with single underscores between digits — agreeing
with the conforming parser on every token that parser accepts, and
otherwise returns the trimmed string itself. -/
theorem C3_parse_element_amended (x : String) :
    (parse_element x = none ↔ pyStripL x.data = []) ∧
    (∀ n : Int, pyIntL (pyStripL x.data) = some n →
        parse_element x = some (Element.int n)) ∧
    (pyIntL (pyStripL x.data) = none → pyStripL x.data ≠ [] →
        parse_element x = some (Element.str (String.mk (pyStripL x.data)))) ∧
    (∀ n : Int, conformingInt x = some n → parse_element x = some (Element.int n)) := by
  refine ⟨?_, ?_, ?_, ?_⟩
  · rw [parse_element, parse_elementL_eq]
    by_cases hx : pyStripL x.data = []
    · simp [hx]
    · rw [if_neg hx]
      cases hp : pyIntL (pyStripL x.data) <;> simp [hx]
  · intro n hn
    have hne : pyStripL x.data ≠ [] := by
      intro he
      rw [he] at hn
      exact Option.noConfusion ((rfl : pyIntL [] = none) ▸ hn)
    rw [parse_element, parse_elementL_eq, if_neg hne, hn]
  · intro hn hne
    rw [parse_element, parse_elementL_eq, if_neg hne, hn]
  · intro n hc
    have h2 : pyIntL x.data = some n := conformingInt_agrees x n hc
    have h3 : pyIntL (pyStripL x.data) = some n := by rw [pyIntL_strip]; exact h2
    have hne : pyStripL x.data ≠ [] := by
      intro he
      rw [he] at h3
      exact Option.noConfusion ((rfl : pyIntL [] = none) ▸ h3)
    rw [parse_element, parse_elementL_eq, if_neg hne, h3]

/-- Witness for `C3_parse_element_amended` at the concrete token " 42 ". -/
theorem C3_parse_element_amended_witness :
    pyIntL (pyStripL " 42 ".data) = some 42 ∧
    parse_element " 42 " = some (Element.int 42) :=
  ⟨by decide, (C3_parse_element_amended " 42 ").2.1 42 (by decide)⟩

/-- Zeta-reduced equation for `parse_universal`. -/
theorem parse_universal_eq (text : String) :
    parse_universal text =
      match rangeMatch (pyStripL text.data) with
      | some (s, e) => if s ≤ e then pyRangeSet s (e + 1) else pyRangeSet e (s + 1)
      | none => parse_setL (pyStripL text.data) := rfl

/-- C4: the Set Parser splits on commas, parses each token with the Element
Parser, discards empty tokens, and returns a duplicate-free collection
("1,1,2" gives the two-element set of 1 and 2); the insertion order of the pieces never
affects the resulting set. -/
theorem C4_parse_set :
    (∀ (text : String) (e : Element),
      e ∈ parse_set text ↔
        ∃ p, p ∈ splitOnComma text.data ∧ parse_elementL p = some e) ∧
    parse_set "1,1,2" = {Element.int 1, Element.int 2} ∧
    (∀ parts₁ parts₂ : List (List Char), parts₁.Perm parts₂ →
      parts₁.foldl addElement ∅ = parts₂.foldl addElement ∅) := by
  refine ⟨fun text e => mem_parse_setL text.data e, by decide, ?_⟩
  intro p1 p2 h
  exact foldl_addElement_perm h ∅

/-- Witness for `C4_parse_set`: permuting the two tokens of "1,2" leaves the
parsed set unchanged. -/
theorem C4_parse_set_witness :
    ([['1'], ['2']] : List (List Char)).Perm [['2'], ['1']] ∧
    ([['1'], ['2']] : List (List Char)).foldl addElement ∅ =
      ([['2'], ['1']] : List (List Char)).foldl addElement ∅ :=
  ⟨by decide, C4_parse_set.2.2 [['1'], ['2']] [['2'], ['1']] (by decide)⟩

/-- C5: the Universal Set Parser tries the numeric range pattern first and
falls back to the Set Parser only when it does not match, so "5,10" is the
two-element set of 5 and 10; a matching range is inclusive and oriented
low-to-high regardless of bound order, so "3-7" and "7-3" both give the
integers 3 through 7. -/
theorem C5_parse_universal :
    parse_universal "3-7" =
      {Element.int 3, Element.int 4, Element.int 5, Element.int 6, Element.int 7} ∧
    parse_universal "7-3" = parse_universal "3-7" ∧
    rangeMatch (pyStripL "5,10".data) = none ∧
    parse_universal "5,10" = {Element.int 5, Element.int 10} ∧
    (∀ (text : String) (a b : Int), rangeMatch (pyStripL text.data) = some (a, b) →
      ∀ e, e ∈ parse_universal text ↔
        ∃ m : Int, e = Element.int m ∧ min a b ≤ m ∧ m ≤ max a b) ∧
    (∀ text : String, rangeMatch (pyStripL text.data) = none →
      parse_universal text = parse_set (String.mk (pyStripL text.data))) := by
  refine ⟨by decide, by decide, by decide, by decide, ?_, ?_⟩
  · intro text a b h e
    rw [parse_universal_eq, h]
    dsimp only
    by_cases hab : a ≤ b
    · rw [if_pos hab]
      rw [mem_pyRangeSet]
      constructor
      · rintro ⟨m, rfl, h1, h2⟩
        exact ⟨m, rfl, by omega, by omega⟩
      · rintro ⟨m, rfl, h1, h2⟩
        exact ⟨m, rfl, by omega, by omega⟩
    · rw [if_neg hab]
      rw [mem_pyRangeSet]
      constructor
      · rintro ⟨m, rfl, h1, h2⟩
        exact ⟨m, rfl, by omega, by omega⟩
      · rintro ⟨m, rfl, h1, h2⟩
        exact ⟨m, rfl, by omega, by omega⟩
  · intro text h
    rw [parse_universal_eq, h]
    rfl

/-- Witness for `C5_parse_universal`: the reversed range "10-3" matches the
pattern and contains 5; a non-range input falls back to the Set Parser. -/
theorem C5_parse_universal_witness :
    rangeMatch (pyStripL "10-3".data) = some (10, 3) ∧
    Element.int 5 ∈ parse_universal "10-3" ∧
    parse_universal "abc,1" = parse_set "abc,1" :=
  ⟨by decide,
   (C5_parse_universal.2.2.2.2.1 "10-3" 10 3 (by decide) (Element.int 5)).mpr
     ⟨5, rfl, by decide, by decide⟩,
   C5_parse_universal.2.2.2.2.2 "abc,1" (by decide)⟩

/-- C10 (implicit): the Set Parser maps the empty string and any string of
only commas and whitespace to the empty set: every token trims to the empty
string, parses to "no value", and is dropped. -/
theorem C10_all_blank_tokens :
    parse_set "" = ∅ ∧ parse_set " " = ∅ ∧ parse_set ",,, " = ∅ ∧
    (∀ text : String, (∀ p, p ∈ splitOnComma text.data → pyStripL p = []) →
      parse_set text = ∅) := by
  refine ⟨by decide, by decide, by decide, ?_⟩
  intro text h
  rw [Finset.eq_empty_iff_forall_not_mem]
  intro e he
  obtain ⟨p, hp, hpe⟩ := (mem_parse_setL text.data e).mp he
  rw [parse_elementL_eq, if_pos (h p hp)] at hpe
  exact Option.noConfusion hpe

/-- Witness for `C10_all_blank_tokens` at the input ",,, ". -/
theorem C10_all_blank_tokens_witness :
    (∀ p, p ∈ splitOnComma ",,, ".data → pyStripL p = []) ∧ parse_set ",,, " = ∅ :=
  ⟨by decide, C10_all_blank_tokens.2.2.2 ",,, " (by decide)⟩

/-- Zeta-reduced equation for `complementWarning`. -/
theorem complementWarning_eq (ns : Nat) (op : String) (A B C U : Finset Element) :
    complementWarning ns op A B C U =
      if strContains op "Complement" = true then
        if A \ U ∪ B \ U ∪ (if ns = 3 then C \ U else ∅) = ∅ then none
        else some (A \ U ∪ B \ U ∪ (if ns = 3 then C \ U else ∅))
      else none := rfl

/-- C6: before any complement-family operation (the operation names that
contain "Complement", exactly the four two-set and five three-set
complement menu entries) every input set is checked against U; a warning
carrying exactly the missing elements is surfaced iff some element of A, B
(or C when three sets are shown) is outside U, and the computed result of
every two-set complement operation is the same U-minus-operand formula
even when such elements exist — insufficiency never blocks the
computation. -/
theorem C6_coverage_warning :
    (∀ (ns : Nat) (op : String) (A B C U m : Finset Element),
      complementWarning ns op A B C U = some m →
        m = A \ U ∪ B \ U ∪ (if ns = 3 then C \ U else ∅) ∧ m ≠ ∅) ∧
    (∀ (ns : Nat) (op : String) (A B C U : Finset Element),
      strContains op "Complement" = true →
      (complementWarning ns op A B C U = none ↔
        A \ U ∪ B \ U ∪ (if ns = 3 then C \ U else ∅) = ∅)) ∧
    menu2.filter (fun op => strContains op "Complement") =
      ["Complement of A", "Complement of B",
       "Complement of (A ∪ B)", "Complement of (A ∩ B)"] ∧
    menu3.filter (fun op => strContains op "Complement") =
      ["Complement of A", "Complement of B", "Complement of C",
       "Complement of (A ∪ B ∪ C)", "Complement of (A ∩ B ∩ C)"] ∧
    (∀ (A B U : Finset Element) (cA cB : String), A \ U ≠ ∅ →
      (evalTwo "Complement of A" A B U cA cB).result = U \ A ∧
      (evalTwo "Complement of B" A B U cA cB).result = U \ B ∧
      (evalTwo "Complement of (A ∪ B)" A B U cA cB).result = U \ (A ∪ B) ∧
      (evalTwo "Complement of (A ∩ B)" A B U cA cB).result = U \ (A ∩ B) ∧
      (evalTwo "Complement of A" A B U cA cB).errorShown = false) := by
  refine ⟨?_, ?_, by decide, by decide, fun A B U cA cB _ => ⟨rfl, rfl, rfl, rfl, rfl⟩⟩
  · intro ns op A B C U m h
    rw [complementWarning_eq] at h
    by_cases hc : strContains op "Complement" = true
    · rw [if_pos hc] at h
      by_cases hm : A \ U ∪ B \ U ∪ (if ns = 3 then C \ U else ∅) = ∅
      · rw [if_pos hm] at h
        exact Option.noConfusion h
      · rw [if_neg hm] at h
        injection h with h2
        exact ⟨h2.symm, h2.symm ▸ hm⟩
    · rw [if_neg hc] at h
      exact Option.noConfusion h
  · intro ns op A B C U hc
    rw [complementWarning_eq, if_pos hc]
    by_cases hm : A \ U ∪ B \ U ∪ (if ns = 3 then C \ U else ∅) = ∅
    · rw [if_pos hm]
      exact iff_of_true rfl hm
    · rw [if_neg hm]
      exact iff_of_false (fun he => Option.noConfusion he) hm

/-- Witness for `C6_coverage_warning`: with A containing 11 and U empty the
coverage is insufficient, a warning listing exactly 11 is produced, and the
complement is still computed from the given U. -/
theorem C6_coverage_warning_witness :
    complementWarning 2 "Complement of A" {Element.int 11} ∅ ∅ ∅ =
      some ({Element.int 11} \ ∅ ∪ ∅ \ ∅ ∪ (if 2 = 3 then ∅ \ ∅ else ∅)) ∧
    ({Element.int 11} \ ∅ ∪ ∅ \ ∅ ∪ (if 2 = 3 then ∅ \ ∅ else ∅) ≠ (∅ : Finset Element)) ∧
    (({Element.int 11} : Finset Element) \ ∅ ≠ ∅) ∧
    (evalTwo "Complement of A" {Element.int 11} ∅ ∅ "#FF5733" "#33C1FF").result =
      ∅ \ {Element.int 11} := by
  refine ⟨by decide, ?_, by decide,
    (C6_coverage_warning.2.2.2.2 {Element.int 11} ∅ ∅ "#FF5733" "#33C1FF" (by decide)).1⟩
  exact (C6_coverage_warning.1 2 "Complement of A" {Element.int 11} ∅ ∅ ∅ _ (by decide)).2

/-- C7: any operation selection outside the fixed two-set menu surfaces a
user-visible error and falls back to treating all sets as empty: the
rendered sets and the result all become empty, with no highlights, rather
than raising or halting. -/
theorem C7_unknown_operation (op : String) (A B U : Finset Element) (cA cB : String)
    (h : op ∉ menu2) :
    evalTwo op A B U cA cB = ⟨∅, ∅, ∅, [], (cA, cB), true⟩ := by
  simp only [menu2, List.mem_cons, List.not_mem_nil, or_false, not_or] at h
  obtain ⟨h1, h2, h3, h4, h5, h6, h7, h8⟩ := h
  rw [evalTwo, if_neg h1, if_neg h2, if_neg h3, if_neg h4, if_neg h5, if_neg h6,
    if_neg h7, if_neg h8]

/-- Witness for `C7_unknown_operation` at the unknown name "frobnicate". -/
theorem C7_unknown_operation_witness :
    "frobnicate" ∉ menu2 ∧
    evalTwo "frobnicate" ∅ ∅ ∅ "#FF5733" "#33C1FF" =
      ⟨∅, ∅, ∅, [], ("#FF5733", "#33C1FF"), true⟩ :=
  ⟨by decide, C7_unknown_operation "frobnicate" ∅ ∅ ∅ "#FF5733" "#33C1FF" (by decide)⟩

/-- C8 as stated is false on the code: the fixed menus hold eight two-set
and thirteen three-set operation names, which is twenty-one named set
expressions in total, not sixteen. -/
theorem C8_counterexample :
    menu2.length = 8 ∧ menu3.length = 13 ∧ menu2.length + menu3.length ≠ 16 :=
  ⟨rfl, rfl, by decide⟩

/-- C8 (amended): the operation selector is a fixed, non-user-extensible
enumeration of twenty-one named set expressions, eight for two sets and
thirteen for three sets (each menu free of duplicates), and the mapping
from each operation name to its result formula and highlighted region set
is a fixed lookup reproduced for every listed operation: the two-set rows
against the dispatch in `src/app.py`, the three-set rows against the
spec-modelled `evalThree`. -/
theorem C8_fixed_operation_table :
    menu2.length = 8 ∧ menu3.length = 13 ∧ menu2.length + menu3.length = 21 ∧
    menu2.Nodup ∧ menu3.Nodup ∧
    (∀ (A B U : Finset Element) (cA cB : String),
      evalTwo "A ∪ B" A B U cA cB =
        ⟨A, B, A ∪ B, ["10", "01", "11"], (cA, cB), false⟩ ∧
      evalTwo "A ∩ B" A B U cA cB = ⟨A, B, A ∩ B, ["11"], (cA, cB), false⟩ ∧
      evalTwo "A \\ B" A B U cA cB = ⟨A, B, A \ B, ["10"], (cA, cB), false⟩ ∧
      evalTwo "B \\ A" A B U cA cB = ⟨A, B, B \ A, ["01"], (cA, cB), false⟩ ∧
      evalTwo "Complement of A" A B U cA cB =
        ⟨U, A, U \ A, ["10"], ("#CCCCCC", cA), false⟩ ∧
      evalTwo "Complement of B" A B U cA cB =
        ⟨U, B, U \ B, ["10"], ("#CCCCCC", cB), false⟩ ∧
      evalTwo "Complement of (A ∪ B)" A B U cA cB =
        ⟨U, A ∪ B, U \ (A ∪ B), ["10"], ("#CCCCCC", "#888888"), false⟩ ∧
      evalTwo "Complement of (A ∩ B)" A B U cA cB =
        ⟨U, A ∩ B, U \ (A ∩ B), ["10"], ("#CCCCCC", "#888888"), false⟩) ∧
    (∀ A B C U : Finset Element,
      evalThree "A ∪ B ∪ C" A B C U =
        (A ∪ B ∪ C, ["100", "010", "001", "110", "101", "011", "111"]) ∧
      evalThree "A ∩ B ∩ C" A B C U = (A ∩ B ∩ C, ["111"]) ∧
      evalThree "A \\ (B ∪ C)" A B C U = (A \ (B ∪ C), ["100"]) ∧
      evalThree "B \\ (A ∪ C)" A B C U = (B \ (A ∪ C), ["010"]) ∧
      evalThree "C \\ (A ∪ B)" A B C U = (C \ (A ∪ B), ["001"]) ∧
      evalThree "(A ∩ B) \\ C" A B C U = ((A ∩ B) \ C, ["110"]) ∧
      evalThree "(A ∩ C) \\ B" A B C U = ((A ∩ C) \ B, ["101"]) ∧
      evalThree "(B ∩ C) \\ A" A B C U = ((B ∩ C) \ A, ["011"]) ∧
      evalThree "Complement of A" A B C U = (U \ A, ["10"]) ∧
      evalThree "Complement of B" A B C U = (U \ B, ["10"]) ∧
      evalThree "Complement of C" A B C U = (U \ C, ["10"]) ∧
      evalThree "Complement of (A ∪ B ∪ C)" A B C U = (U \ (A ∪ B ∪ C), ["10"]) ∧
      evalThree "Complement of (A ∩ B ∩ C)" A B C U = (U \ (A ∩ B ∩ C), ["10"])) :=
  ⟨rfl, rfl, rfl, by decide, by decide,
   fun A B U cA cB => ⟨rfl, rfl, rfl, rfl, rfl, rfl, rfl, rfl⟩,
   fun A B C U => ⟨rfl, rfl, rfl, rfl, rfl, rfl, rfl, rfl, rfl, rfl, rfl, rfl, rfl⟩⟩

/-- C9: the Display Formatter renders the empty set as the empty-set symbol
and a non-empty set as a brace-delimited, comma-separated list; ordering is
the natural sort when all elements are mutually comparable — any
enumeration of the set with 3, 1 and 2 renders as "1, 2, 3" in braces —
and falls back to string-representation order for mixed-type sets such as
the one holding 1, "b" and 2, without raising; the output depends only on
the underlying set whenever no mixed types are present. -/
theorem C9_format_set :
    format_setL [] = "∅" ∧
    (∀ l : List Element, l.Perm [Element.int 3, Element.int 1, Element.int 2] →
      format_setL l = "\x7b1, 2, 3\x7d") ∧
    format_setL [Element.int 1, Element.str "b", Element.int 2] = "\x7b1, 2, b\x7d" ∧
    (∀ l₁ l₂ : List Element, l₁.Perm l₂ → (hasInt l₁ && hasStr l₁) = false →
      format_setL l₁ = format_setL l₂) := by
  have key : ∀ l₁ l₂ : List Element, l₁.Perm l₂ → (hasInt l₁ && hasStr l₁) = false →
      format_setL l₁ = format_setL l₂ := by
    intro l₁ l₂ h hmix
    by_cases hnil : l₁ = []
    · subst hnil
      have : l₂ = [] := List.length_eq_zero.mp (h.length_eq.symm)
      rw [this]
    · have hnil2 : l₂ ≠ [] := by
        intro he
        rw [he] at h
        exact hnil (List.length_eq_zero.mp h.length_eq)
      rw [format_setL, format_setL, if_neg hnil, if_neg hnil2,
        sort_result_of_perm h hmix]
  refine ⟨by decide, ?_, by decide, key⟩
  intro l h
  rw [key l [Element.int 3, Element.int 1, Element.int 2] h ?_]
  · decide
  · have hS : hasStr l = hasStr [Element.int 3, Element.int 1, Element.int 2] := any_perm h
    rw [Bool.and_eq_false_iff]
    right
    rw [hS]
    rfl

/-- Witness for `C9_format_set`: one concrete enumeration of the set with
3, 1 and 2. -/
theorem C9_format_set_witness :
    ([Element.int 1, Element.int 3, Element.int 2].Perm
      [Element.int 3, Element.int 1, Element.int 2]) ∧
    format_setL [Element.int 1, Element.int 3, Element.int 2] = "\x7b1, 2, 3\x7d" :=
  ⟨by decide, C9_format_set.2.1 [Element.int 1, Element.int 3, Element.int 2] (by decide)⟩
